import Mathlib

/-!
Verification of the MPC transcription layer of `do_mpc/controller.py`.

The controller builds one large nonlinear program from a dynamic model,
cost terms, bounds and an uncertainty description.  The development below
embeds the parts of `MPC` that the verified properties touch:

* the scenario-tree quantities consumed by `_prepare_nlp` (the producer
  `_setup_scenario_tree` lives in the optimizer base class, which is not
  part of the sources; those definitions are modelled from the spec),
* the objective and constraint assembly loop of `_prepare_nlp`
  (the objective is a sum of terms accumulated with `obj +=` in a fixed
  loop order; it is embedded as the list of accumulated summands, each
  summand recording the loop indices and the argument indices of the
  symbolic expression; the constraint list is embedded as the list of
  appended blocks),
* the bound arrays filled by `_update_bounds`,
* the configuration check `_check_validity`,
* the runtime step `make_step`, and
* `set_objective`.
-/

namespace DoMPC

/-- Extended bound value as stored in the numeric bound structures:
minus infinity, a finite value, or plus infinity. -/
inductive BVal where
  | negInf : BVal
  | fin : ℤ → BVal
  | posInf : BVal
deriving DecidableEq

/-- Strict order on bound values, matching the numpy comparison of floats
with infinities used in `_check_validity` (line 1579: `lb.cat > ub.cat`). -/
def BVal.lt : BVal → BVal → Bool
  | BVal.negInf, BVal.negInf => false
  | BVal.negInf, BVal.fin _ => true
  | BVal.negInf, BVal.posInf => true
  | BVal.fin _, BVal.negInf => false
  | BVal.fin v, BVal.fin w => decide (v < w)
  | BVal.fin _, BVal.posInf => true
  | BVal.posInf, _ => false

/-- Configuration and pre-setup state of an `MPC` object, restricted to the
fields read by `_check_validity`, `_update_bounds` and `_prepare_nlp`.
Bound and scaling data are per-component functions; only indices below the
respective size (`n_x`, `n_u`, `n_z`) are meaningful.  The fields
`n_total_coll_points` and `ifcn_rows` describe the output of
`_setup_discretization` (optimizer base class, not in the sources): the
number of interior collocation points per interval and the row count of the
residual output of the integrator function `ifcn`.  For a discrete-time
model the spec (section 4.2) gives no interior points and the residual
degenerates to the algebraic equations, so `n_total_coll_points = 0` and
`ifcn_rows = n_z`.  The field `nl_cons_rows` is the row count of the
nonlinear constraint function built by `_setup_nl_cons`; `branch_offset`
is the offset table of `_setup_scenario_tree`, kept abstract because no
verified property depends on its values. -/
structure MPCConfig where
  n_horizon : ℕ
  n_robust : ℕ
  n_combinations : ℕ
  open_loop : Bool
  use_terminal_bounds : Bool
  cons_check_colloc_points : Bool
  nl_cons_check_colloc_points : Bool
  nl_cons_single_slack : Bool
  n_x : ℕ
  n_u : ℕ
  n_z : ℕ
  n_tvp : ℕ
  n_p : ℕ
  x_lb : ℕ → BVal
  x_ub : ℕ → BVal
  u_lb : ℕ → BVal
  u_ub : ℕ → BVal
  z_lb : ℕ → BVal
  z_ub : ℕ → BVal
  x_terminal_lb : ℕ → BVal
  x_terminal_ub : ℕ → BVal
  set_objective : Bool
  set_rterm : Bool
  set_tvp_fun : Bool
  set_p_fun : Bool
  n_total_coll_points : ℕ
  ifcn_rows : ℕ
  nl_cons_rows : ℕ
  branch_offset : ℕ → ℕ → ℕ

/-- Modelled from the spec: scenario count per stage produced by
`_setup_scenario_tree` (optimizer base class, not in the sources);
spec section 4.1: `n_scenarios[k] = n_combinations ^ min(k, n_robust)`. -/
def nScenarios (c : MPCConfig) (k : ℕ) : ℕ :=
  c.n_combinations ^ min k c.n_robust

/-- Modelled from the spec: branch count per stage produced by
`_setup_scenario_tree`; spec section 4.1: a node fans to `n_combinations`
children while `k < n_robust`, else 1 (branching frozen). -/
def nBranches (c : MPCConfig) (k : ℕ) : ℕ :=
  if k < c.n_robust then c.n_combinations else 1

/-- Modelled from the spec: child index table of `_setup_scenario_tree`;
spec section 4.1 fixes a depth-first, combination-ordered enumeration, so
branch `b` of node `s` at stage `k` is node `s * n_branches[k] + b` at
stage `k + 1`. -/
def childScenario (c : MPCConfig) (k s b : ℕ) : ℕ :=
  s * nBranches c k + b

/-- Modelled from the spec: parent index table of `_setup_scenario_tree`;
with the depth-first enumeration of `childScenario`, node `s` at stage
`k ≥ 1` has parent `s / n_branches[k-1]` at stage `k - 1`. -/
def parentScenario (c : MPCConfig) (k s : ℕ) : ℕ :=
  s / nBranches c (k - 1)

/-- Maximal scenario count `n_max_scenarios = n_combinations ** n_robust`
(`_prepare_nlp`, line 1788); the symbolic arrays are allocated with this
uniform width at every stage. -/
def nMaxScenarios (c : MPCConfig) : ℕ :=
  c.n_combinations ^ c.n_robust

/-- Scenario count for the inputs (`_prepare_nlp`, lines 1791-1795):
one shared input per stage under open loop, else one per scenario slot. -/
def nUScenarios (c : MPCConfig) : ℕ :=
  if c.open_loop then 1 else nMaxScenarios c

/-- Number of slack-variable stages (`_prepare_nlp`, lines 1798-1801):
a single global slack or one slack per stage. -/
def nEps (c : MPCConfig) : ℕ :=
  if c.nl_cons_single_slack then 1 else c.n_horizon

/-- Index of the last collocation point in the state axis of `opt_x`
(the axis has `1 + n_total_coll_points` entries, `_prepare_nlp` line 1807,
so Python index `-1` is this index). -/
def lastXIdx (c : MPCConfig) : ℕ :=
  c.n_total_coll_points

/-- Index of the last point in the algebraic axis of `opt_x`
(the axis has `max(n_total_coll_points, 1)` entries, line 1809). -/
def lastZIdx (c : MPCConfig) : ℕ :=
  max c.n_total_coll_points 1 - 1

/-- Scenario weight `omega[k] = 1 / n_scenarios[k + 1]`
(`_prepare_nlp`, line 1864). -/
def omegaWeight (c : MPCConfig) (k : ℕ) : ℚ :=
  1 / (nScenarios c (k + 1) : ℚ)

/-- Scenario index used for the input at a stage (`_prepare_nlp`,
line 1874): always 0 under open loop, else the scenario index. -/
def uScenIdx (c : MPCConfig) (s : ℕ) : ℕ :=
  if c.open_loop then 0 else s

/-- One summand accumulated into the objective scalar by `_prepare_nlp`.
Every constructor records the loop indices `(k, s, b)` of the iteration
that added the summand, followed by the argument indices of the symbolic
expression:

* `lterm k s b w x u z tvp p`: `w * lterm_fun(...)` (line 1919) with
  unscaled state `x = (stage, scenario, collocation point)`, unscaled
  input `u = (stage, scenario)`, unscaled algebraic state `z`, the
  time-varying parameter block `tvp` and the parameter combination `p`;
* `slackPenalty k s b eps`: `epsterm_fun(opt_x_unscaled[_eps, eps])`
  (line 1922) with `eps = (slack stage, scenario)`;
* `mterm k s b w x tvp p`: `w * mterm_fun(...)` (line 1926);
* `rtermPrev k s b u`: `rterm_factor^T (opt_x[_u, u] - opt_p[_u_prev] /
  u_scaling)^2` (line 1931), the rate penalty against the previous-input
  runtime parameter;
* `rtermDelta k s b u uParent`: `rterm_factor^T (opt_x[_u, u] -
  opt_x[_u, uParent])^2` (line 1933), the rate penalty against the input
  decision variable `uParent`. -/
inductive ObjTerm where
  | lterm (k s b : ℕ) (w : ℚ) (x : ℕ × ℕ × ℕ) (u : ℕ × ℕ) (z : ℕ × ℕ × ℕ)
      (tvp : ℕ) (p : ℕ) : ObjTerm
  | slackPenalty (k s b : ℕ) (eps : ℕ × ℕ) : ObjTerm
  | mterm (k s b : ℕ) (w : ℚ) (x : ℕ × ℕ × ℕ) (tvp : ℕ) (p : ℕ) : ObjTerm
  | rtermPrev (k s b : ℕ) (u : ℕ × ℕ) : ObjTerm
  | rtermDelta (k s b : ℕ) (u : ℕ × ℕ) (uParent : ℕ × ℕ) : ObjTerm
deriving DecidableEq

/-- Objective summands added by one iteration of the innermost loop of
`_prepare_nlp` (lines 1875-1933), in accumulation order: stage cost
(line 1919), slack penalty (line 1922), terminal cost on the final stage
only (lines 1925-1927), then the input rate penalty (lines 1930-1933). -/
def branchObjTerms (c : MPCConfig) (k s b : ℕ) : List ObjTerm :=
  [ObjTerm.lterm k s b (omegaWeight c k) (k, s, lastXIdx c) (k, uScenIdx c s)
      (k, s, lastZIdx c) k (b + c.branch_offset k s),
   ObjTerm.slackPenalty k s b (min k (nEps c - 1), s)]
  ++ (if k = c.n_horizon - 1 then
        [ObjTerm.mterm k s b (omegaWeight c k) (k + 1, s, lastXIdx c) (k + 1)
          (b + c.branch_offset k s)]
      else [])
  ++ [if k = 0 then
        ObjTerm.rtermPrev k s b (0, uScenIdx c s)
      else
        ObjTerm.rtermDelta k s b (k, uScenIdx c s)
          (k - 1, parentScenario c k (uScenIdx c s))]

/-- Objective of the assembled NLP, as the list of summands accumulated by
the stage-major, scenario-minor, branch-innermost loop of `_prepare_nlp`
(lines 1868-1933). -/
def objTerms (c : MPCConfig) : List ObjTerm :=
  (List.range c.n_horizon).flatMap fun k =>
    (List.range (nScenarios c k)).flatMap fun s =>
      (List.range (nBranches c k)).flatMap fun b =>
        branchObjTerms c k s b

/-- Symbolic residual of one block appended to the constraint list:

* `initCondRes k s j`: `opt_x[_x, k, s, j] - opt_p[_x0] / x_scaling`
  (line 1857, with `k = 0`, `s = 0` and `j` the last collocation index);
* `collocRes k s b`: the residual output `g_ksb` of the integrator
  function for branch `b` of node `(k, s)` (lines 1882-1887);
* `contRes k s b`: `xf_ksb - opt_x[_x, k+1, child_scenario[k][s][b], -1]`
  (line 1892);
* `nlRes k s b xj zj`: the nonlinear constraint function evaluated at
  state collocation point `xj` and algebraic point `zj`
  (lines 1897-1913). -/
inductive ConsExpr where
  | initCondRes (k s j : ℕ) : ConsExpr
  | collocRes (k s b : ℕ) : ConsExpr
  | contRes (k s b : ℕ) : ConsExpr
  | nlRes (k s b xj zj : ℕ) : ConsExpr
deriving DecidableEq

/-- One block appended to `cons` by `_prepare_nlp`, with its row count and
whether the matching entries of `cons_lb` and `cons_ub` are both zero
vectors (an equality block).  Blocks with `eqZero = false` carry the
bounds `_nl_cons_lb` and `_nl_cons_ub` instead. -/
structure ConsBlock where
  expr : ConsExpr
  rows : ℕ
  eqZero : Bool
deriving DecidableEq

/-- Constraint blocks appended by one iteration of the innermost loop of
`_prepare_nlp`: the collocation residual (line 1887), the continuity
residual (line 1892), then the nonlinear constraint blocks, one per
collocation point or a single one per interval depending on
`nl_cons_check_colloc_points` (lines 1897-1913). -/
def branchConsBlocks (c : MPCConfig) (k s b : ℕ) : List ConsBlock :=
  [⟨ConsExpr.collocRes k s b, c.ifcn_rows, true⟩,
   ⟨ConsExpr.contRes k s b, c.n_x, true⟩]
  ++ (if c.nl_cons_check_colloc_points then
        (List.range c.n_total_coll_points).map fun i =>
          ⟨ConsExpr.nlRes k s b i i, c.nl_cons_rows, false⟩
      else
        [⟨ConsExpr.nlRes k s b (lastXIdx c) 0, c.nl_cons_rows, false⟩])

/-- Constraint list of the assembled NLP: the initial condition block
(lines 1856-1860) followed by the blocks of the stage-major,
scenario-minor, branch-innermost loop (lines 1868-1913). -/
def consBlocks (c : MPCConfig) : List ConsBlock :=
  ⟨ConsExpr.initCondRes 0 0 (lastXIdx c), c.n_x, true⟩ ::
  ((List.range c.n_horizon).flatMap fun k =>
    (List.range (nScenarios c k)).flatMap fun s =>
      (List.range (nBranches c k)).flatMap fun b =>
        branchConsBlocks c k s b)

/-- Stage loop index recorded in an objective summand. -/
def ObjTerm.stageOf : ObjTerm → ℕ
  | ObjTerm.lterm k _ _ _ _ _ _ _ _ => k
  | ObjTerm.slackPenalty k _ _ _ => k
  | ObjTerm.mterm k _ _ _ _ _ _ => k
  | ObjTerm.rtermPrev k _ _ _ => k
  | ObjTerm.rtermDelta k _ _ _ _ => k

/-- Scenario loop index recorded in an objective summand. -/
def ObjTerm.scenOf : ObjTerm → ℕ
  | ObjTerm.lterm _ s _ _ _ _ _ _ _ => s
  | ObjTerm.slackPenalty _ s _ _ => s
  | ObjTerm.mterm _ s _ _ _ _ _ => s
  | ObjTerm.rtermPrev _ s _ _ => s
  | ObjTerm.rtermDelta _ s _ _ _ => s

/-- Stage index recorded in a constraint residual. -/
def ConsExpr.stageOf : ConsExpr → ℕ
  | ConsExpr.initCondRes k _ _ => k
  | ConsExpr.collocRes k _ _ => k
  | ConsExpr.contRes k _ _ => k
  | ConsExpr.nlRes k _ _ _ _ => k

/-- Scenario index recorded in a constraint residual. -/
def ConsExpr.scenOf : ConsExpr → ℕ
  | ConsExpr.initCondRes _ s _ => s
  | ConsExpr.collocRes _ s _ => s
  | ConsExpr.contRes _ s _ => s
  | ConsExpr.nlRes _ s _ _ _ => s

/-- Lower bound array for the state variables of the decision vector after
`_prepare_nlp`: initialized to minus infinity (line 1847) and then filled
by `_update_bounds` (lines 1742-1765).  Under `cons_check_colloc_points`
the path bound is written to every collocation point of stages
`1 : n_horizon`; otherwise only to the last point of those stages; the
terminal bound is written to the last point of stage `n_horizon` in both
branches.  The different slices are disjoint, so the sequential numpy
assignments are equivalent to this case split.  The scenario index is
unused because every assignment covers all scenario slots. -/
def lbOptX (c : MPCConfig) (k _s j i : ℕ) : BVal :=
  if c.cons_check_colloc_points then
    if k = c.n_horizon ∧ j = lastXIdx c then c.x_terminal_lb i
    else if 1 ≤ k ∧ k < c.n_horizon then c.x_lb i
    else BVal.negInf
  else
    if k = c.n_horizon ∧ j = lastXIdx c then c.x_terminal_lb i
    else if 1 ≤ k ∧ k < c.n_horizon ∧ j = lastXIdx c then c.x_lb i
    else BVal.negInf

/-- Upper bound array for the state variables, dual to `lbOptX`
(lines 1848 and 1742-1765). -/
def ubOptX (c : MPCConfig) (k _s j i : ℕ) : BVal :=
  if c.cons_check_colloc_points then
    if k = c.n_horizon ∧ j = lastXIdx c then c.x_terminal_ub i
    else if 1 ≤ k ∧ k < c.n_horizon then c.x_ub i
    else BVal.posInf
  else
    if k = c.n_horizon ∧ j = lastXIdx c then c.x_terminal_ub i
    else if 1 ≤ k ∧ k < c.n_horizon ∧ j = lastXIdx c then c.x_ub i
    else BVal.posInf

/-- Lower bound array for the algebraic variables (`_update_bounds`,
lines 1748-1749 and 1760-1761): every point under
`cons_check_colloc_points`, else only point 0 of each interval. -/
def lbOptZ (c : MPCConfig) (_k _s j i : ℕ) : BVal :=
  if c.cons_check_colloc_points then c.z_lb i
  else if j = 0 then c.z_lb i
  else BVal.negInf

/-- Upper bound array for the algebraic variables, dual to `lbOptZ`. -/
def ubOptZ (c : MPCConfig) (_k _s j i : ℕ) : BVal :=
  if c.cons_check_colloc_points then c.z_ub i
  else if j = 0 then c.z_ub i
  else BVal.posInf

/-- Lower bound array for the inputs (`_update_bounds`, line 1768). -/
def lbOptU (c : MPCConfig) (_k _s i : ℕ) : BVal :=
  c.u_lb i

/-- Upper bound array for the inputs (`_update_bounds`, line 1769). -/
def ubOptU (c : MPCConfig) (_k _s i : ℕ) : BVal :=
  c.u_ub i

/-- Terminal bound fallback of `_check_validity` (lines 1584-1588): when
terminal bounds are in use and every component of the terminal upper
(respectively lower) bound still holds its initial value plus (minus)
infinity, the terminal bound is replaced by the path bound. -/
def terminalFallback (c : MPCConfig) : MPCConfig :=
  let allUbInf : Bool :=
    (List.range c.n_x).all fun i => decide (c.x_terminal_ub i = BVal.posInf)
  let allLbInf : Bool :=
    (List.range c.n_x).all fun i => decide (c.x_terminal_lb i = BVal.negInf)
  { c with
    x_terminal_ub :=
      if allUbInf && c.use_terminal_bounds then c.x_ub else c.x_terminal_ub,
    x_terminal_lb :=
      if allLbInf && c.use_terminal_bounds then c.x_lb else c.x_terminal_lb }

/-- Check of `_check_validity` (lines 1577-1582): some decision variable of
class state, input or algebraic has a configured lower bound strictly
greater than its upper bound. -/
def boundsInconsistent (c : MPCConfig) : Bool :=
  ((List.range c.n_x).any fun i => BVal.lt (c.x_ub i) (c.x_lb i)) ||
  ((List.range c.n_u).any fun i => BVal.lt (c.u_ub i) (c.u_lb i)) ||
  ((List.range c.n_z).any fun i => BVal.lt (c.z_ub i) (c.z_lb i))

/-- Fatal configuration errors raised by `_check_validity`. -/
inductive ConfigError where
  | objectiveUndefined : ConfigError
  | tvpFunMissing : ConfigError
  | pFunMissing : ConfigError
  | inconsistentBounds : ConfigError
deriving DecidableEq

/-- Model of `_check_validity` (lines 1553-1601), in source order: missing
objective (line 1560), missing time-varying-parameter function for a model
with such parameters (line 1567), missing parameter function for a model
with parameters (line 1570), inconsistent bounds (lines 1577-1582); the
success path applies the terminal bound fallback (lines 1584-1588).  The
warnings of lines 1563 and 1573 are non-fatal and not modelled. -/
def checkValidity (c : MPCConfig) : Except ConfigError MPCConfig :=
  if c.set_objective = false then Except.error ConfigError.objectiveUndefined
  else if c.set_tvp_fun = false ∧ 0 < c.n_tvp then
    Except.error ConfigError.tvpFunMissing
  else if c.set_p_fun = false ∧ 0 < c.n_p then
    Except.error ConfigError.pFunMissing
  else if boundsInconsistent c then Except.error ConfigError.inconsistentBounds
  else Except.ok (terminalFallback c)

/-- Assembled problem: the objective summand list and the constraint block
list of `_prepare_nlp`. -/
structure NLP where
  objective : List ObjTerm
  constraints : List ConsBlock

/-- Model of `_prepare_nlp` (lines 1776-1961): the validity check runs
first (line 1781) and any configuration error aborts before any part of
the NLP is constructed; on success the objective and constraint list are
assembled from the checked configuration. -/
def prepareNLP (c : MPCConfig) : Except ConfigError NLP :=
  match checkValidity c with
  | Except.error e => Except.error e
  | Except.ok c1 => Except.ok ⟨objTerms c1, consBlocks c1⟩

/-- Numeric decision vector `opt_x_num`, restricted to the slots that
`make_step` reads: the first-stage nominal input `opt_x_num[_u, 0, 0]`,
the first-stage algebraic solution `opt_x_num[_z, 0, 0, 0]`, and the
remaining entries kept abstract. -/
structure DecVec where
  u00 : List ℚ
  z000 : List ℚ
  rest : ℕ → ℚ

/-- All-zero decision vector created at the end of `_prepare_nlp`
(line 1956: `self._opt_x_num = self._opt_x(0)`). -/
def zeroDecVec (n_u n_z : ℕ) : DecVec :=
  ⟨List.replicate n_u 0, List.replicate n_z 0, fun _ => 0⟩

/-- Runtime state of a set-up `MPC` object, restricted to the fields that
`make_step` touches: the flags `setup` and `set_initial_guess`, the warm
start `opt_x_num`, the iterated variables `x0`, `u0`, `z0`, the logical
clock `t0` with step size `t_step`, and the input and algebraic scaling
vectors used to unscale the extracted solution. -/
structure RtState where
  n_x : ℕ
  n_u : ℕ
  n_z : ℕ
  setupDone : Bool
  guessSet : Bool
  opt_x_num : DecVec
  x0 : List ℚ
  u0 : List ℚ
  z0 : List ℚ
  t0 : ℚ
  t_step : ℚ
  u_scaling : List ℚ
  z_scaling : List ℚ

/-- Parameter vector `opt_p_num` refreshed by `make_step`
(lines 1694-1697): the current initial state, the previously applied
input, and the evaluation time for the external parameter functions. -/
structure RtParams where
  x0 : List ℚ
  u_prev : List ℚ
  t : ℚ

/-- Non-fatal warnings issued by `make_step`. -/
inductive RtWarning where
  | missingGuess : RtWarning
deriving DecidableEq

/-- Fatal errors raised by the entry assertions of `make_step`. -/
inductive RtError where
  | notSetup : RtError
  | wrongShape (got expected : ℕ) : RtError
deriving DecidableEq

/-- Result of one `make_step` call: the issued warnings, the returned
physical input, and the updated runtime state. -/
structure StepResult where
  warn : List RtWarning
  u0 : List ℚ
  state : RtState

/-- Model of `make_step` (lines 1653-1736).  The entry assertions check the
setup flag (line 1667) and the shape of `x0` (lines 1678-1679).  A missing
initial guess only issues a warning and sets the flag (lines 1681-1685).
The parameter vector is refreshed with `x0`, the previous input and the
current time (lines 1688-1697) and the solver is called with the current
decision vector as warm start.  `solve` lives in the optimizer base class,
which is not in the sources; modelled from the spec (section 4.5: call the
solver with the current decision vector as warm start and refreshed
parameters; persist the full returned decision vector as next warm start)
as the abstract argument `solver`.  The extracted input and algebraic
solution are unscaled elementwise (lines 1702-1703), the clock advances by
one step and the iterated variables are overwritten (lines 1730-1733).
The data logging of lines 1707-1727 is persistence and not modelled. -/
def makeStep (solver : DecVec → RtParams → DecVec) (st : RtState)
    (x0 : List ℚ) : Except RtError StepResult :=
  if st.setupDone = false then Except.error RtError.notSetup
  else if x0.length ≠ st.n_x then
    Except.error (RtError.wrongShape x0.length st.n_x)
  else
    let warn : List RtWarning :=
      if st.guessSet then [] else [RtWarning.missingGuess]
    let sol := solver st.opt_x_num ⟨x0, st.u0, st.t0⟩
    let u0n := List.zipWith (fun a b => a * b) sol.u00 st.u_scaling
    let z0n := List.zipWith (fun a b => a * b) sol.z000 st.z_scaling
    Except.ok
      ⟨warn, u0n,
        { st with
          guessSet := true
          opt_x_num := sol
          x0 := x0
          u0 := u0n
          z0 := z0n
          t0 := st.t0 + st.t_step }⟩

/-- Symbolic scalar as far as `set_objective` inspects it: a shape and an
identity tag distinguishing distinct expressions. -/
structure CasExpr where
  rows : ℕ
  cols : ℕ
  tag : ℕ
deriving DecidableEq

/-- Zero constant `DM(0)` substituted by the dead branches of
`set_objective` (lines 1280 and 1287). -/
def dmZero : CasExpr :=
  ⟨1, 1, 0⟩

/-- Python-level errors observable from `set_objective`: accessing the
attribute `shape` of `None` raises `AttributeError`; a failed `assert`
raises `AssertionError`. -/
inductive PyError where
  | attributeError : PyError
  | assertionError : PyError
deriving DecidableEq

/-- Controller state touched by `set_objective`: the setup flag, the stored
cost terms and the `set_objective` flag. -/
structure ObjectiveState where
  setupDone : Bool
  mterm : CasExpr
  lterm : CasExpr
  objectiveSet : Bool
deriving DecidableEq

/-- Shape access `e.shape` on an optional expression: `None` has no
`shape` attribute, so the access itself raises `AttributeError`. -/
def shapeOf : Option CasExpr → Except PyError (ℕ × ℕ)
  | none => Except.error PyError.attributeError
  | some e => Except.ok (e.rows, e.cols)

/-- Model of `set_objective` (lines 1236-1305) with its declared defaults
`mterm = None`, `lterm = None`.  In source order: the shape assertion on
`mterm` (line 1264, an attribute access that already fails for `None`),
the shape assertion on `lterm` (line 1265), the setup-flag assertion
(line 1266); the `isinstance` checks of lines 1272-1277 accept every
`CasExpr`; then the `None` substitution of lines 1279-1289, reached only
with both arguments present, stores the cost terms and sets the flag
(line 1305).  The function is pure, so an error leaves the controller
state unmodified. -/
def setObjective (st : ObjectiveState) (mterm lterm : Option CasExpr) :
    Except PyError ObjectiveState :=
  match shapeOf mterm with
  | Except.error e => Except.error e
  | Except.ok ms =>
    if ms ≠ (1, 1) then Except.error PyError.assertionError
    else match shapeOf lterm with
      | Except.error e => Except.error e
      | Except.ok ls =>
        if ls ≠ (1, 1) then Except.error PyError.assertionError
        else if st.setupDone then Except.error PyError.assertionError
        else
          let mstored := match mterm with
            | none => dmZero
            | some m => m
          let lstored := match lterm with
            | none => dmZero
            | some l => l
          Except.ok
            { st with
              mterm := mstored
              lterm := lstored
              objectiveSet := true }

/-! Helper lemmas about the assembly loops. -/

theorem mem_objTerms_of (c : MPCConfig) {k s b : ℕ} (hk : k < c.n_horizon)
    (hs : s < nScenarios c k) (hb : b < nBranches c k) {t : ObjTerm}
    (ht : t ∈ branchObjTerms c k s b) : t ∈ objTerms c := by
  unfold objTerms
  refine List.mem_flatMap.mpr ⟨k, List.mem_range.mpr hk, ?_⟩
  refine List.mem_flatMap.mpr ⟨s, List.mem_range.mpr hs, ?_⟩
  exact List.mem_flatMap.mpr ⟨b, List.mem_range.mpr hb, ht⟩

theorem objTerms_mem_elim (c : MPCConfig) {t : ObjTerm} (ht : t ∈ objTerms c) :
    ∃ k s b, k < c.n_horizon ∧ s < nScenarios c k ∧ b < nBranches c k ∧
      t ∈ branchObjTerms c k s b := by
  unfold objTerms at ht
  obtain ⟨k, hk, ht⟩ := List.mem_flatMap.mp ht
  obtain ⟨s, hs, ht⟩ := List.mem_flatMap.mp ht
  obtain ⟨b, hb, ht⟩ := List.mem_flatMap.mp ht
  exact ⟨k, s, b, List.mem_range.mp hk, List.mem_range.mp hs,
    List.mem_range.mp hb, ht⟩

theorem branchObjTerms_mem_iff (c : MPCConfig) (k s b : ℕ) (t : ObjTerm) :
    t ∈ branchObjTerms c k s b ↔
      t = ObjTerm.lterm k s b (omegaWeight c k) (k, s, lastXIdx c)
            (k, uScenIdx c s) (k, s, lastZIdx c) k (b + c.branch_offset k s) ∨
      t = ObjTerm.slackPenalty k s b (min k (nEps c - 1), s) ∨
      (k = c.n_horizon - 1 ∧
        t = ObjTerm.mterm k s b (omegaWeight c k) (k + 1, s, lastXIdx c)
              (k + 1) (b + c.branch_offset k s)) ∨
      t = (if k = 0 then ObjTerm.rtermPrev k s b (0, uScenIdx c s)
           else ObjTerm.rtermDelta k s b (k, uScenIdx c s)
                  (k - 1, parentScenario c k (uScenIdx c s))) := by
  unfold branchObjTerms
  by_cases h : k = c.n_horizon - 1 <;> simp [h]

theorem mem_consBlocks_of (c : MPCConfig) {k s b : ℕ} (hk : k < c.n_horizon)
    (hs : s < nScenarios c k) (hb : b < nBranches c k) {blk : ConsBlock}
    (hblk : blk ∈ branchConsBlocks c k s b) : blk ∈ consBlocks c := by
  unfold consBlocks
  refine List.mem_cons.mpr (Or.inr ?_)
  refine List.mem_flatMap.mpr ⟨k, List.mem_range.mpr hk, ?_⟩
  refine List.mem_flatMap.mpr ⟨s, List.mem_range.mpr hs, ?_⟩
  exact List.mem_flatMap.mpr ⟨b, List.mem_range.mpr hb, hblk⟩

theorem consBlocks_mem_elim (c : MPCConfig) {blk : ConsBlock}
    (h : blk ∈ consBlocks c) :
    blk = ⟨ConsExpr.initCondRes 0 0 (lastXIdx c), c.n_x, true⟩ ∨
    ∃ k s b, k < c.n_horizon ∧ s < nScenarios c k ∧ b < nBranches c k ∧
      blk ∈ branchConsBlocks c k s b := by
  unfold consBlocks at h
  rcases List.mem_cons.mp h with h | h
  · exact Or.inl h
  obtain ⟨k, hk, h⟩ := List.mem_flatMap.mp h
  obtain ⟨s, hs, h⟩ := List.mem_flatMap.mp h
  obtain ⟨b, hb, h⟩ := List.mem_flatMap.mp h
  exact Or.inr ⟨k, s, b, List.mem_range.mp hk, List.mem_range.mp hs,
    List.mem_range.mp hb, h⟩

theorem branchConsBlocks_mem_iff (c : MPCConfig) (k s b : ℕ) (blk : ConsBlock) :
    blk ∈ branchConsBlocks c k s b ↔
      blk = ⟨ConsExpr.collocRes k s b, c.ifcn_rows, true⟩ ∨
      blk = ⟨ConsExpr.contRes k s b, c.n_x, true⟩ ∨
      (c.nl_cons_check_colloc_points = true ∧
        ∃ i < c.n_total_coll_points,
          blk = ⟨ConsExpr.nlRes k s b i i, c.nl_cons_rows, false⟩) ∨
      (c.nl_cons_check_colloc_points = false ∧
        blk = ⟨ConsExpr.nlRes k s b (lastXIdx c) 0, c.nl_cons_rows, false⟩) := by
  unfold branchConsBlocks
  cases hfl : c.nl_cons_check_colloc_points <;> simp [hfl]
  tauto

/-! Claims. -/

/-- Claim C1: for every stage `k` below the horizon, every live scenario
`s` and every branch `b`, the assembled objective receives the per-branch
stage cost weighted by `omega_k = 1 / n_scenarios[k + 1]` together with
the slack penalty (at the per-stage or the single global slack index), and
the weighted terminal cost is received exactly when `k` is the final stage
`n_horizon - 1`. -/
theorem objective_per_branch_contributions (c : MPCConfig) (k s b : ℕ)
    (hk : k < c.n_horizon) (hs : s < nScenarios c k) (hb : b < nBranches c k) :
    ObjTerm.lterm k s b (1 / (nScenarios c (k + 1) : ℚ)) (k, s, lastXIdx c)
        (k, uScenIdx c s) (k, s, lastZIdx c) k (b + c.branch_offset k s)
      ∈ objTerms c ∧
    ObjTerm.slackPenalty k s b
        ((if c.nl_cons_single_slack then 0 else k), s) ∈ objTerms c ∧
    (ObjTerm.mterm k s b (1 / (nScenarios c (k + 1) : ℚ))
        (k + 1, s, lastXIdx c) (k + 1) (b + c.branch_offset k s) ∈ objTerms c
      ↔ k = c.n_horizon - 1) := by
  have hw : omegaWeight c k = 1 / (nScenarios c (k + 1) : ℚ) := rfl
  have heps : min k (nEps c - 1) = if c.nl_cons_single_slack then 0 else k := by
    unfold nEps
    split <;> omega
  refine ⟨?_, ?_, ?_, ?_⟩
  · exact mem_objTerms_of c hk hs hb
      ((branchObjTerms_mem_iff c k s b _).mpr (Or.inl (by rw [hw])))
  · refine mem_objTerms_of c hk hs hb
      ((branchObjTerms_mem_iff c k s b _).mpr (Or.inr (Or.inl ?_)))
    rw [heps]
  · intro hmem
    obtain ⟨k1, s1, b1, _, _, _, ht⟩ := objTerms_mem_elim c hmem
    rcases (branchObjTerms_mem_iff c k1 s1 b1 _).mp ht with
      h | h | ⟨hlast, h⟩ | h
    · exact absurd h (by simp)
    · exact absurd h (by simp)
    · have h2 := h.symm
      simp only [ObjTerm.mterm.injEq] at h2
      obtain ⟨hk1, -⟩ := h2
      rw [hk1] at hlast
      exact hlast
    · split at h <;> exact absurd h (by simp)
  · intro hlast
    refine mem_objTerms_of c hk hs hb
      ((branchObjTerms_mem_iff c k s b _).mpr (Or.inr (Or.inr (Or.inl ?_))))
    exact ⟨hlast, by rw [hw]⟩

/-- Concrete configuration used by the witnesses: two uncertainty
combinations, robust horizon 1, prediction horizon 2, two states, one
input, no algebraic states, two collocation points per interval. -/
def cfgW : MPCConfig where
  n_horizon := 2
  n_robust := 1
  n_combinations := 2
  open_loop := false
  use_terminal_bounds := true
  cons_check_colloc_points := true
  nl_cons_check_colloc_points := false
  nl_cons_single_slack := false
  n_x := 2
  n_u := 1
  n_z := 0
  n_tvp := 0
  n_p := 2
  x_lb := fun _ => BVal.negInf
  x_ub := fun _ => BVal.posInf
  u_lb := fun _ => BVal.fin (-1)
  u_ub := fun _ => BVal.fin 1
  z_lb := fun _ => BVal.negInf
  z_ub := fun _ => BVal.posInf
  x_terminal_lb := fun _ => BVal.negInf
  x_terminal_ub := fun _ => BVal.posInf
  set_objective := true
  set_rterm := true
  set_tvp_fun := true
  set_p_fun := true
  n_total_coll_points := 2
  ifcn_rows := 4
  nl_cons_rows := 1
  branch_offset := fun _ _ => 0

/-- Claim C1, witness: a concrete robust configuration with two
combinations, robust horizon 1 and horizon 2 at stage 0, scenario 0,
branch 0. -/
theorem objective_per_branch_contributions_witness :
    (0 < (cfgW : MPCConfig).n_horizon ∧ 0 < nScenarios cfgW 0 ∧
      0 < nBranches cfgW 0) ∧
    (ObjTerm.lterm 0 0 0 (1 / (nScenarios cfgW (0 + 1) : ℚ))
        (0, 0, lastXIdx cfgW) (0, uScenIdx cfgW 0) (0, 0, lastZIdx cfgW) 0
        (0 + cfgW.branch_offset 0 0) ∈ objTerms cfgW ∧
      ObjTerm.slackPenalty 0 0 0
        ((if cfgW.nl_cons_single_slack then 0 else 0), 0) ∈ objTerms cfgW ∧
      (ObjTerm.mterm 0 0 0 (1 / (nScenarios cfgW (0 + 1) : ℚ))
          (0 + 1, 0, lastXIdx cfgW) (0 + 1) (0 + cfgW.branch_offset 0 0)
          ∈ objTerms cfgW ↔ 0 = cfgW.n_horizon - 1)) :=
  ⟨⟨by decide, by decide, by decide⟩,
    objective_per_branch_contributions cfgW 0 0 0 (by decide) (by decide)
      (by decide)⟩

/-- Claim C2: the input rate penalty at stage 0 is always measured against
the previous-input runtime parameter (divided by the input scaling), and at
every stage `k > 0` against the input of the parent node at stage `k - 1`:
every live iteration adds the respective summand, every stage-0 rate
summand in the objective references the parameter vector, and every later
rate summand references `(k - 1, parent(s_u))`. -/
theorem rate_penalty_structure (c : MPCConfig) :
    (∀ k s b, k < c.n_horizon → s < nScenarios c k → b < nBranches c k →
      (if k = 0 then ObjTerm.rtermPrev k s b (0, uScenIdx c s)
       else ObjTerm.rtermDelta k s b (k, uScenIdx c s)
              (k - 1, parentScenario c k (uScenIdx c s))) ∈ objTerms c) ∧
    (∀ k s b u, ObjTerm.rtermPrev k s b u ∈ objTerms c →
      k = 0 ∧ u = (0, uScenIdx c s)) ∧
    (∀ k s b u uParent, ObjTerm.rtermDelta k s b u uParent ∈ objTerms c →
      0 < k ∧ u = (k, uScenIdx c s) ∧
        uParent = (k - 1, parentScenario c k (uScenIdx c s))) := by
  refine ⟨?_, ?_, ?_⟩
  · intro k s b hk hs hb
    exact mem_objTerms_of c hk hs hb
      ((branchObjTerms_mem_iff c k s b _).mpr (Or.inr (Or.inr (Or.inr rfl))))
  · intro k s b u hmem
    obtain ⟨k1, s1, b1, -, -, -, ht⟩ := objTerms_mem_elim c hmem
    rcases (branchObjTerms_mem_iff c k1 s1 b1 _).mp ht with
      h | h | ⟨-, h⟩ | h
    · exact absurd h (by simp)
    · exact absurd h (by simp)
    · exact absurd h (by simp)
    · split at h
      · have h2 := h
        simp only [ObjTerm.rtermPrev.injEq] at h2
        obtain ⟨hk1, hs1, -, hu⟩ := h2
        subst hk1
        subst hs1
        simp_all
      · exact absurd h (by simp)
  · intro k s b u uParent hmem
    obtain ⟨k1, s1, b1, -, -, -, ht⟩ := objTerms_mem_elim c hmem
    rcases (branchObjTerms_mem_iff c k1 s1 b1 _).mp ht with
      h | h | ⟨-, h⟩ | h
    · exact absurd h (by simp)
    · exact absurd h (by simp)
    · exact absurd h (by simp)
    · split at h
      · exact absurd h (by simp)
      · have h2 := h
        simp only [ObjTerm.rtermDelta.injEq] at h2
        obtain ⟨hk1, hs1, -, hu, hup⟩ := h2
        subst hk1
        subst hs1
        refine ⟨by omega, hu, hup⟩

/-- Claim C2, witness: in the concrete configuration the stage-0 iteration
for scenario 0, branch 1 adds the rate penalty against the previous-input
parameter. -/
theorem rate_penalty_structure_witness :
    (0 < cfgW.n_horizon ∧ 0 < nScenarios cfgW 0 ∧ 1 < nBranches cfgW 0) ∧
    (if (0 : ℕ) = 0 then ObjTerm.rtermPrev 0 0 1 (0, uScenIdx cfgW 0)
     else ObjTerm.rtermDelta 0 0 1 (0, uScenIdx cfgW 0)
            (0 - 1, parentScenario cfgW 0 (uScenIdx cfgW 0))) ∈ objTerms cfgW :=
  ⟨⟨by decide, by decide, by decide⟩,
    (rate_penalty_structure cfgW).1 0 0 1 (by decide) (by decide) (by decide)⟩

/-- Claim C3: padding scenario slots never contribute: every summand of
the assembled objective and every block of the constraint list carries a
scenario index below the live scenario count of its stage (for the
objective and the per-branch constraints this is the loop bound
`s < n_scenarios[k]` of `_prepare_nlp` lines 1868-1877; the initial
condition block sits at node `(0, 0)` and stage 0 always has one live
scenario). -/
theorem padding_slots_contribute_nothing (c : MPCConfig) :
    (∀ t ∈ objTerms c, ObjTerm.scenOf t < nScenarios c (ObjTerm.stageOf t)) ∧
    (∀ blk ∈ consBlocks c,
      ConsExpr.scenOf blk.expr < nScenarios c (ConsExpr.stageOf blk.expr)) := by
  constructor
  · intro t ht
    obtain ⟨k, s, b, -, hs, -, hmem⟩ := objTerms_mem_elim c ht
    rcases (branchObjTerms_mem_iff c k s b _).mp hmem with
      h | h | ⟨-, h⟩ | h
    · subst h
      exact hs
    · subst h
      exact hs
    · subst h
      exact hs
    · subst h
      split <;> exact hs
  · intro blk hblk
    rcases consBlocks_mem_elim c hblk with h | ⟨k, s, b, -, hs, -, hmem⟩
    · subst h
      simp [ConsExpr.scenOf, ConsExpr.stageOf, nScenarios]
    rcases (branchConsBlocks_mem_iff c k s b _).mp hmem with
      h | h | ⟨-, i, -, h⟩ | ⟨-, h⟩
    · subst h
      exact hs
    · subst h
      exact hs
    · subst h
      exact hs
    · subst h
      exact hs

/-- Claim C3, witness: a concrete stage cost summand of the concrete
configuration and the initial condition block of its constraint list. -/
theorem padding_slots_contribute_nothing_witness :
    (ObjTerm.lterm 1 1 0 (omegaWeight cfgW 1) (1, 1, lastXIdx cfgW)
        (1, uScenIdx cfgW 1) (1, 1, lastZIdx cfgW) 1
        (0 + cfgW.branch_offset 1 1) ∈ objTerms cfgW ∧
      ObjTerm.scenOf (ObjTerm.lterm 1 1 0 (omegaWeight cfgW 1)
          (1, 1, lastXIdx cfgW) (1, uScenIdx cfgW 1) (1, 1, lastZIdx cfgW) 1
          (0 + cfgW.branch_offset 1 1)) <
        nScenarios cfgW (ObjTerm.stageOf (ObjTerm.lterm 1 1 0
          (omegaWeight cfgW 1) (1, 1, lastXIdx cfgW) (1, uScenIdx cfgW 1)
          (1, 1, lastZIdx cfgW) 1 (0 + cfgW.branch_offset 1 1)))) ∧
    ((⟨ConsExpr.initCondRes 0 0 (lastXIdx cfgW), cfgW.n_x, true⟩ : ConsBlock)
        ∈ consBlocks cfgW ∧
      ConsExpr.scenOf (ConsExpr.initCondRes 0 0 (lastXIdx cfgW)) <
        nScenarios cfgW (ConsExpr.stageOf
          (ConsExpr.initCondRes 0 0 (lastXIdx cfgW)))) := by
  have hmem1 : ObjTerm.lterm 1 1 0 (omegaWeight cfgW 1) (1, 1, lastXIdx cfgW)
      (1, uScenIdx cfgW 1) (1, 1, lastZIdx cfgW) 1
      (0 + cfgW.branch_offset 1 1) ∈ objTerms cfgW :=
    mem_objTerms_of cfgW (k := 1) (s := 1) (b := 0) (by decide) (by decide)
      (by decide) ((branchObjTerms_mem_iff cfgW 1 1 0 _).mpr (Or.inl rfl))
  have hmem2 : (⟨ConsExpr.initCondRes 0 0 (lastXIdx cfgW), cfgW.n_x, true⟩ :
      ConsBlock) ∈ consBlocks cfgW := List.mem_cons_self _ _
  exact ⟨⟨hmem1, (padding_slots_contribute_nothing cfgW).1 _ hmem1⟩,
    ⟨hmem2, (padding_slots_contribute_nothing cfgW).2 _ hmem2⟩⟩

/-- Claim C4: the first block appended to the constraint list is the
equality (zero lower and upper bounds) fixing the last collocation point of
the root node state at stage 0 to the supplied initial state divided by the
state scaling (`_prepare_nlp`, lines 1856-1860). -/
theorem first_constraint_is_initial_condition (c : MPCConfig) :
    (consBlocks c).head? =
      some ⟨ConsExpr.initCondRes 0 0 (lastXIdx c), c.n_x, true⟩ :=
  rfl

theorem filter_flatMap_comm {α β : Type} (l : List α) (f : α → List β)
    (p : β → Bool) :
    (l.flatMap f).filter p = l.flatMap fun a => (f a).filter p := by
  induction l with
  | nil => rfl
  | cons a l ih => simp [List.filter_append, ih]

theorem flatMap_singleton_eq_map {α β : Type} (l : List α) (f : α → β) :
    (l.flatMap fun a => [f a]) = l.map f := by
  induction l with
  | nil => rfl
  | cons a l ih => simp_all

/-- Claim C5: for a discrete-time model (no collocation points, residual
output of the integrator empty once there are no algebraic states),
`n_robust = 0` and no nonlinear constraints configured, the blocks of the
constraint list with at least one row are exactly the initial condition
equality followed by one continuity equality per stage — `n_horizon + 1`
equality blocks, all with zero bounds — and every block carrying the
inequality bounds is empty. -/
theorem nominal_discrete_constraint_counts (c : MPCConfig)
    (hr : c.n_robust = 0) (hg : c.ifcn_rows = 0) (hnl : c.nl_cons_rows = 0)
    (hx : 0 < c.n_x) :
    ((consBlocks c).filter fun blk => blk.rows ≠ 0) =
      ⟨ConsExpr.initCondRes 0 0 (lastXIdx c), c.n_x, true⟩ ::
        ((List.range c.n_horizon).map fun k =>
          ⟨ConsExpr.contRes k 0 0, c.n_x, true⟩) ∧
    ((consBlocks c).filter fun blk => blk.rows ≠ 0).length =
      c.n_horizon + 1 ∧
    ∀ blk ∈ consBlocks c, blk.eqZero = false → blk.rows = 0 := by
  have hsc : ∀ k, nScenarios c k = 1 := fun k => by simp [nScenarios, hr]
  have hnb : ∀ k, nBranches c k = 1 := fun k => by simp [nBranches, hr]
  have hone : ∀ k, ((List.range (nScenarios c k)).flatMap fun s =>
      (List.range (nBranches c k)).flatMap fun b => branchConsBlocks c k s b)
        = branchConsBlocks c k 0 0 := by
    intro k
    rw [hsc, hnb]
    simp [List.range_succ]
  have hfil : ∀ k, (branchConsBlocks c k 0 0).filter
      (fun blk => blk.rows ≠ 0) = [⟨ConsExpr.contRes k 0 0, c.n_x, true⟩] := by
    intro k
    unfold branchConsBlocks
    cases hc : c.nl_cons_check_colloc_points <;>
      simp [List.filter_append, hg, hnl, hx.ne', hc, List.filter_eq_nil_iff]
  have hmain : ((consBlocks c).filter fun blk => blk.rows ≠ 0) =
      ⟨ConsExpr.initCondRes 0 0 (lastXIdx c), c.n_x, true⟩ ::
        ((List.range c.n_horizon).map fun k =>
          ⟨ConsExpr.contRes k 0 0, c.n_x, true⟩) := by
    unfold consBlocks
    rw [List.filter_cons, filter_flatMap_comm]
    simp only [hone, hfil, flatMap_singleton_eq_map]
    simp [hx.ne']
  refine ⟨hmain, ?_, ?_⟩
  · rw [hmain]
    simp
  · intro blk hblk hfalse
    rcases consBlocks_mem_elim c hblk with h | ⟨k, s, b, -, -, -, hmem⟩
    · subst h
      simp at hfalse
    rcases (branchConsBlocks_mem_iff c k s b _).mp hmem with
      h | h | ⟨-, i, -, h⟩ | ⟨-, h⟩
    · subst h
      simp at hfalse
    · subst h
      simp at hfalse
    · subst h
      exact hnl
    · subst h
      exact hnl

/-- Concrete nominal discrete configuration used by the witnesses:
horizon 5, two states, one input, no algebraic states, no branching, no
collocation points, no nonlinear constraints. -/
def cfgD : MPCConfig where
  n_horizon := 5
  n_robust := 0
  n_combinations := 1
  open_loop := false
  use_terminal_bounds := true
  cons_check_colloc_points := true
  nl_cons_check_colloc_points := false
  nl_cons_single_slack := false
  n_x := 2
  n_u := 1
  n_z := 0
  n_tvp := 0
  n_p := 0
  x_lb := fun _ => BVal.negInf
  x_ub := fun _ => BVal.posInf
  u_lb := fun _ => BVal.fin (-1)
  u_ub := fun _ => BVal.fin 1
  z_lb := fun _ => BVal.negInf
  z_ub := fun _ => BVal.posInf
  x_terminal_lb := fun _ => BVal.negInf
  x_terminal_ub := fun _ => BVal.posInf
  set_objective := true
  set_rterm := false
  set_tvp_fun := false
  set_p_fun := false
  n_total_coll_points := 0
  ifcn_rows := 0
  nl_cons_rows := 0
  branch_offset := fun _ _ => 0

/-- Claim C5, witness: the spec scenario with `n_x = 2`, `n_u = 1`,
horizon 5, `n_robust = 0` and a discrete-time model yields 5 continuity
equalities plus the initial condition equality and no inequality rows. -/
theorem nominal_discrete_constraint_counts_witness :
    (cfgD.n_robust = 0 ∧ cfgD.ifcn_rows = 0 ∧ cfgD.nl_cons_rows = 0 ∧
      0 < cfgD.n_x) ∧
    (((consBlocks cfgD).filter fun blk => blk.rows ≠ 0) =
      ⟨ConsExpr.initCondRes 0 0 (lastXIdx cfgD), cfgD.n_x, true⟩ ::
        ((List.range cfgD.n_horizon).map fun k =>
          ⟨ConsExpr.contRes k 0 0, cfgD.n_x, true⟩) ∧
    ((consBlocks cfgD).filter fun blk => blk.rows ≠ 0).length =
      cfgD.n_horizon + 1 ∧
    ∀ blk ∈ consBlocks cfgD, blk.eqZero = false → blk.rows = 0) :=
  ⟨⟨rfl, rfl, rfl, by decide⟩,
    nominal_discrete_constraint_counts cfgD rfl rfl rfl (by decide)⟩

/-- Claim C6: under both values of the constraint density flag
`cons_check_colloc_points`, the propagated bounds for the stage-0 state
variables stay at minus and plus infinity for every scenario slot,
collocation point and component: state bound filling starts at stage 1 and
the initial state node is never path-bounded. -/
theorem initial_state_never_bounded (c : MPCConfig) (hN : 1 ≤ c.n_horizon)
    (s j i : ℕ) :
    lbOptX c 0 s j i = BVal.negInf ∧ ubOptX c 0 s j i = BVal.posInf := by
  unfold lbOptX ubOptX
  constructor <;> split_ifs <;> first | rfl | (exfalso; omega)

/-- Claim C6, witness: the stage-0 bounds of the concrete robust
configuration are unbounded. -/
theorem initial_state_never_bounded_witness :
    1 ≤ cfgW.n_horizon ∧
    (lbOptX cfgW 0 0 2 1 = BVal.negInf ∧ ubOptX cfgW 0 0 2 1 = BVal.posInf) :=
  ⟨by decide, initial_state_never_bounded cfgW (by decide) 0 2 1⟩

theorem all_range_iff {n : ℕ} {f : ℕ → Bool} :
    (List.range n).all f = true ↔ ∀ i < n, f i = true := by
  simp [List.all_eq_true]

/-- Claim C7: with `use_terminal_bounds` enabled, the terminal bounds fall
back to the path bounds exactly when no terminal bound was set (every
terminal upper bound still plus infinity, respectively every terminal
lower bound still minus infinity), otherwise the configured terminal
bounds are kept; either way the resulting terminal bounds are what the
propagated bound arrays hold at the last collocation point of the state at
stage `n_horizon`, under both constraint density flags. -/
theorem terminal_bound_fallback (c : MPCConfig)
    (h : c.use_terminal_bounds = true) :
    ((∀ i < c.n_x, c.x_terminal_ub i = BVal.posInf) →
      ∀ s i, ubOptX (terminalFallback c) c.n_horizon s (lastXIdx c) i =
        c.x_ub i) ∧
    ((¬ ∀ i < c.n_x, c.x_terminal_ub i = BVal.posInf) →
      ∀ s i, ubOptX (terminalFallback c) c.n_horizon s (lastXIdx c) i =
        c.x_terminal_ub i) ∧
    ((∀ i < c.n_x, c.x_terminal_lb i = BVal.negInf) →
      ∀ s i, lbOptX (terminalFallback c) c.n_horizon s (lastXIdx c) i =
        c.x_lb i) ∧
    ((¬ ∀ i < c.n_x, c.x_terminal_lb i = BVal.negInf) →
      ∀ s i, lbOptX (terminalFallback c) c.n_horizon s (lastXIdx c) i =
        c.x_terminal_lb i) := by
  have hn : (terminalFallback c).n_horizon = c.n_horizon := rfl
  have hlast : lastXIdx (terminalFallback c) = lastXIdx c := rfl
  have hcc : (terminalFallback c).cons_check_colloc_points =
      c.cons_check_colloc_points := rfl
  have hub : ∀ s i, ubOptX (terminalFallback c) c.n_horizon s (lastXIdx c) i =
      (terminalFallback c).x_terminal_ub i := by
    intro s i
    unfold ubOptX
    rw [hn, hlast, hcc]
    cases c.cons_check_colloc_points <;> simp
  have hlb : ∀ s i, lbOptX (terminalFallback c) c.n_horizon s (lastXIdx c) i =
      (terminalFallback c).x_terminal_lb i := by
    intro s i
    unfold lbOptX
    rw [hn, hlast, hcc]
    cases c.cons_check_colloc_points <;> simp
  refine ⟨?_, ?_, ?_, ?_⟩
  · intro hall s i
    rw [hub]
    have hcond : ((List.range c.n_x).all fun i =>
        decide (c.x_terminal_ub i = BVal.posInf)) = true :=
      all_range_iff.mpr fun i hi => decide_eq_true (hall i hi)
    simp [terminalFallback, hcond, h]
  · intro hnall s i
    rw [hub]
    have hcond : ((List.range c.n_x).all fun i =>
        decide (c.x_terminal_ub i = BVal.posInf)) = false := by
      rcases Bool.eq_false_or_eq_true ((List.range c.n_x).all fun i =>
          decide (c.x_terminal_ub i = BVal.posInf)) with ht | hf
      · exact absurd (fun i hi => of_decide_eq_true (all_range_iff.mp ht i hi))
          hnall
      exact hf
    simp [terminalFallback, hcond]
  · intro hall s i
    rw [hlb]
    have hcond : ((List.range c.n_x).all fun i =>
        decide (c.x_terminal_lb i = BVal.negInf)) = true :=
      all_range_iff.mpr fun i hi => decide_eq_true (hall i hi)
    simp [terminalFallback, hcond, h]
  · intro hnall s i
    rw [hlb]
    have hcond : ((List.range c.n_x).all fun i =>
        decide (c.x_terminal_lb i = BVal.negInf)) = false := by
      rcases Bool.eq_false_or_eq_true ((List.range c.n_x).all fun i =>
          decide (c.x_terminal_lb i = BVal.negInf)) with ht | hf
      · exact absurd (fun i hi => of_decide_eq_true (all_range_iff.mp ht i hi))
          hnall
      exact hf
    simp [terminalFallback, hcond]

/-- Claim C7, witness: terminal bounds of the concrete robust
configuration (all unset) fall back to the path bounds at the last
collocation point of stage `n_horizon`. -/
theorem terminal_bound_fallback_witness :
    cfgW.use_terminal_bounds = true ∧
    (((∀ i < cfgW.n_x, cfgW.x_terminal_ub i = BVal.posInf) →
      ∀ s i, ubOptX (terminalFallback cfgW) cfgW.n_horizon s (lastXIdx cfgW) i =
        cfgW.x_ub i) ∧
    ((¬ ∀ i < cfgW.n_x, cfgW.x_terminal_ub i = BVal.posInf) →
      ∀ s i, ubOptX (terminalFallback cfgW) cfgW.n_horizon s (lastXIdx cfgW) i =
        cfgW.x_terminal_ub i) ∧
    ((∀ i < cfgW.n_x, cfgW.x_terminal_lb i = BVal.negInf) →
      ∀ s i, lbOptX (terminalFallback cfgW) cfgW.n_horizon s (lastXIdx cfgW) i =
        cfgW.x_lb i) ∧
    ((¬ ∀ i < cfgW.n_x, cfgW.x_terminal_lb i = BVal.negInf) →
      ∀ s i, lbOptX (terminalFallback cfgW) cfgW.n_horizon s (lastXIdx cfgW) i =
        cfgW.x_terminal_lb i)) :=
  ⟨rfl, terminal_bound_fallback cfgW rfl⟩

/-- Claim C8: a configured lower bound strictly above the matching upper
bound for any state, input or algebraic component makes the validity check
raise, so the NLP preparation aborts before any constraint is built; when
the earlier checks pass the raised error is exactly the inconsistent-bound
exception.  No recovery path exists: the error propagates out of
`prepareNLP`. -/
theorem inconsistent_bounds_abort (c : MPCConfig)
    (h : (∃ i < c.n_x, BVal.lt (c.x_ub i) (c.x_lb i) = true) ∨
         (∃ i < c.n_u, BVal.lt (c.u_ub i) (c.u_lb i) = true) ∨
         (∃ i < c.n_z, BVal.lt (c.z_ub i) (c.z_lb i) = true)) :
    (∃ e, checkValidity c = Except.error e) ∧
    (∃ e, prepareNLP c = Except.error e) ∧
    (c.set_objective = true → c.set_tvp_fun = true → c.set_p_fun = true →
      checkValidity c = Except.error ConfigError.inconsistentBounds) := by
  have hbad : boundsInconsistent c = true := by
    unfold boundsInconsistent
    rcases h with ⟨i, hi, hlt⟩ | ⟨i, hi, hlt⟩ | ⟨i, hi, hlt⟩
    · refine Bool.or_eq_true_iff.mpr (Or.inl (Bool.or_eq_true_iff.mpr
        (Or.inl ?_)))
      exact List.any_eq_true.mpr ⟨i, List.mem_range.mpr hi, hlt⟩
    · refine Bool.or_eq_true_iff.mpr (Or.inl (Bool.or_eq_true_iff.mpr
        (Or.inr ?_)))
      exact List.any_eq_true.mpr ⟨i, List.mem_range.mpr hi, hlt⟩
    · refine Bool.or_eq_true_iff.mpr (Or.inr ?_)
      exact List.any_eq_true.mpr ⟨i, List.mem_range.mpr hi, hlt⟩
  have herr : ∃ e, checkValidity c = Except.error e := by
    unfold checkValidity
    split_ifs <;> simp_all
  refine ⟨herr, ?_, ?_⟩
  · obtain ⟨e, he⟩ := herr
    exact ⟨e, by unfold prepareNLP; rw [he]⟩
  · intro hob htv hp
    unfold checkValidity
    simp [hob, htv, hp, hbad]

/-- Concrete configuration with an inconsistent input bound: lower bound 2
above upper bound 1 for the single input. -/
def cfgB : MPCConfig :=
  { cfgD with
    u_lb := fun _ => BVal.fin 2
    u_ub := fun _ => BVal.fin 1 }

/-- Claim C8, witness: the configuration with input lower bound 2 and
upper bound 1 aborts validity checking and NLP preparation with the
inconsistent-bound error. -/
theorem inconsistent_bounds_abort_witness :
    ((∃ i < cfgB.n_x, BVal.lt (cfgB.x_ub i) (cfgB.x_lb i) = true) ∨
     (∃ i < cfgB.n_u, BVal.lt (cfgB.u_ub i) (cfgB.u_lb i) = true) ∨
     (∃ i < cfgB.n_z, BVal.lt (cfgB.z_ub i) (cfgB.z_lb i) = true)) ∧
    ((∃ e, checkValidity cfgB = Except.error e) ∧
     (∃ e, prepareNLP cfgB = Except.error e) ∧
     (cfgB.set_objective = true → cfgB.set_tvp_fun = true →
       cfgB.set_p_fun = true →
       checkValidity cfgB = Except.error ConfigError.inconsistentBounds)) :=
  ⟨Or.inr (Or.inl ⟨0, by decide, by decide⟩),
    inconsistent_bounds_abort cfgB
      (Or.inr (Or.inl ⟨0, by decide, by decide⟩))⟩

/-- Claim C9: calling `make_step` on a set-up controller for which
`set_initial_guess` was never called issues the missing-guess warning but
does not fail: the step completes normally and the solver is invoked with
the all-zero decision vector created at setup as warm start. -/
theorem make_step_without_guess_warns (solver : DecVec → RtParams → DecVec)
    (st : RtState) (x0 : List ℚ) (hset : st.setupDone = true)
    (hguess : st.guessSet = false) (hshape : x0.length = st.n_x)
    (hzero : st.opt_x_num = zeroDecVec st.n_u st.n_z) :
    ∃ r : StepResult,
      makeStep solver st x0 = Except.ok r ∧
      r.warn = [RtWarning.missingGuess] ∧
      r.u0 = List.zipWith (fun a b => a * b)
        (solver (zeroDecVec st.n_u st.n_z) ⟨x0, st.u0, st.t0⟩).u00
        st.u_scaling ∧
      r.state.guessSet = true := by
  refine ⟨⟨[RtWarning.missingGuess],
      List.zipWith (fun a b => a * b)
        (solver (zeroDecVec st.n_u st.n_z) ⟨x0, st.u0, st.t0⟩).u00
        st.u_scaling,
      { st with
          guessSet := true
          opt_x_num := solver (zeroDecVec st.n_u st.n_z) ⟨x0, st.u0, st.t0⟩
          x0 := x0
          u0 := List.zipWith (fun a b => a * b)
            (solver (zeroDecVec st.n_u st.n_z) ⟨x0, st.u0, st.t0⟩).u00
            st.u_scaling
          z0 := List.zipWith (fun a b => a * b)
            (solver (zeroDecVec st.n_u st.n_z) ⟨x0, st.u0, st.t0⟩).z000
            st.z_scaling
          t0 := st.t0 + st.t_step }⟩, ?_, rfl, rfl, rfl⟩
  unfold makeStep
  rw [hzero]
  simp [hset, hguess, hshape]

/-- Concrete runtime state fresh from setup: flags set by `setup`, the
all-zero warm start of `_prepare_nlp`, no initial guess supplied. -/
def stR : RtState where
  n_x := 2
  n_u := 1
  n_z := 1
  setupDone := true
  guessSet := false
  opt_x_num := zeroDecVec 1 1
  x0 := [0, 0]
  u0 := [0]
  z0 := [0]
  t0 := 0
  t_step := 1
  u_scaling := [2]
  z_scaling := [1]

/-- Claim C9, witness: stepping the fresh concrete state with the identity
solver warns and succeeds. -/
theorem make_step_without_guess_warns_witness :
    (stR.setupDone = true ∧ stR.guessSet = false ∧
      ([1, 2] : List ℚ).length = stR.n_x ∧
      stR.opt_x_num = zeroDecVec stR.n_u stR.n_z) ∧
    ∃ r : StepResult,
      makeStep (fun v _ => v) stR [1, 2] = Except.ok r ∧
      r.warn = [RtWarning.missingGuess] ∧
      r.u0 = List.zipWith (fun a b => a * b)
        ((fun (v : DecVec) (_ : RtParams) => v) (zeroDecVec stR.n_u stR.n_z)
          ⟨[1, 2], stR.u0, stR.t0⟩).u00 stR.u_scaling ∧
      r.state.guessSet = true :=
  ⟨⟨rfl, rfl, rfl, rfl⟩,
    make_step_without_guess_warns (fun v _ => v) stR [1, 2] rfl rfl rfl rfl⟩

/-- Claim C10: although `set_objective` declares the defaults
`mterm = None` and `lterm = None`, a call omitting either argument raises
at the initial shape assertions (the attribute access on `None`) before
any controller state is modified, and every successful call stores exactly
the supplied expressions — the branch substituting `DM(0)` for a missing
cost term is unreachable, so both cost terms are in fact mandatory. -/
theorem set_objective_terms_mandatory :
    (∀ (st : ObjectiveState) (l : Option CasExpr),
      setObjective st none l = Except.error PyError.attributeError) ∧
    (∀ (st : ObjectiveState) (m : CasExpr), m.rows = 1 → m.cols = 1 →
      setObjective st (some m) none = Except.error PyError.attributeError) ∧
    (∀ (st st2 : ObjectiveState) (mo lo : Option CasExpr),
      setObjective st mo lo = Except.ok st2 →
      mo = some st2.mterm ∧ lo = some st2.lterm) := by
  refine ⟨?_, ?_, ?_⟩
  · intro st l
    rfl
  · intro st m hr hc
    unfold setObjective shapeOf
    simp [hr, hc]
  · intro st st2 mo lo hok
    cases mo with
    | none => exact absurd hok (by simp [setObjective, shapeOf])
    | some m =>
      cases lo with
      | none =>
        simp only [setObjective, shapeOf] at hok
        split at hok
        · exact absurd hok (by simp)
        · exact absurd hok (by simp)
      | some l =>
        simp only [setObjective, shapeOf] at hok
        split at hok
        · exact absurd hok (by simp)
        split at hok
        · exact absurd hok (by simp)
        split at hok
        · exact absurd hok (by simp)
        rw [Except.ok.injEq] at hok
        subst hok
        exact ⟨rfl, rfl⟩

/-- Controller state before any `set_objective` call. -/
def stObj : ObjectiveState where
  setupDone := false
  mterm := dmZero
  lterm := dmZero
  objectiveSet := false

/-- Scalar symbolic expression with the required shape `(1, 1)`. -/
def exprW : CasExpr :=
  ⟨1, 1, 7⟩

/-- State stored by the successful `set_objective` call of the witness. -/
def stObjRes : ObjectiveState :=
  { stObj with mterm := exprW, lterm := exprW, objectiveSet := true }

/-- Claim C10, witness: omitting either cost term on the concrete state
raises the attribute error, and a successful call stores the supplied
expressions. -/
theorem set_objective_terms_mandatory_witness :
    setObjective stObj none (some exprW) =
      Except.error PyError.attributeError ∧
    (exprW.rows = 1 ∧ exprW.cols = 1 ∧
      setObjective stObj (some exprW) none =
        Except.error PyError.attributeError) ∧
    (setObjective stObj (some exprW) (some exprW) = Except.ok stObjRes ∧
      some exprW = some stObjRes.mterm ∧
      some exprW = some stObjRes.lterm) :=
  ⟨set_objective_terms_mandatory.1 stObj (some exprW),
    ⟨rfl, rfl, set_objective_terms_mandatory.2.1 stObj exprW rfl rfl⟩,
    ⟨rfl,
      (set_objective_terms_mandatory.2.2 stObj stObjRes (some exprW)
        (some exprW) rfl).1,
      (set_objective_terms_mandatory.2.2 stObj stObjRes (some exprW)
        (some exprW) rfl).2⟩⟩

end DoMPC
